import Mathlib

/-!
Verification of the FFB_Simulator force-feedback session against its
specification.  The definitions below are a shallow embedding of
`src/ffbsimulator/FFB_Simulator.cpp` (the Windows/DirectInput build) and
`src/ffbsimulator/linux/src/FFB_Simulator.cpp` (the Linux/evdev build):

* the effect catalog `m_Effects` is a `std::map<std::string, ...>`, modelled
  as an association list kept sorted by the lexicographic byte order that
  `std::less<std::string>` uses (`lexLt` / `strLt` below);
* `m_EffectNames` is built by iterating that map, so it lists keys in sorted
  order (`createAllEffects`);
* the registration outcome of each `CreateEffect` / `EVIOCSFF` call is an
  oracle `accept : String → Bool` (each of the 14 creation calls has a
  distinct name, so a name-indexed oracle covers every outcome pattern);
* play / stop / adjust are state transformers on `SessionState`, with the
  device answers for one play call packaged in a `PlayOracle` and the native
  commands issued recorded in a `DevCmd` trace;
* the polling tick `UpdateDeviceState` is a function of the device answers
  for that tick (`DevResp`) and the cached state (`PollState`);
* machine integers are `Int` with explicit wrap where the C++ narrows
  (`toInt16` for the Linux `int16_t` intensity, `toInt32` for the Windows
  `LONG`).
-/

/-! ## Lexicographic order on names

`std::map<std::string, V>` iterates its keys in the order of
`std::less<std::string>`: lexicographic comparison of the byte sequences.
Every effect name in the source is plain ASCII, so comparing the `Char`
code points of a Lean `String` is the same order. -/

/-- Lexicographic strict order on character lists, by code point. -/
def lexLt : List Char → List Char → Bool
  | [], [] => false
  | [], _ :: _ => true
  | _ :: _, [] => false
  | a :: as, b :: bs =>
      if a.toNat < b.toNat then true
      else if a.toNat = b.toNat then lexLt as bs
      else false

/-- The key order of `std::map<std::string, V>` (lexicographic, byte-wise). -/
def strLt (a b : String) : Bool := lexLt a.data b.data

theorem char_eq_of_toNat (a b : Char) (h : a.toNat = b.toNat) : a = b :=
  Char.ext (UInt32.ext h)

theorem lexLt_eq_of_not_lt :
    ∀ (a b : List Char), lexLt a b = false → lexLt b a = false → a = b := by
  intro a
  induction a with
  | nil =>
    intro b h1 _
    cases b with
    | nil => rfl
    | cons x xs => simp [lexLt] at h1
  | cons x xs ih =>
    intro b h1 h2
    cases b with
    | nil => simp [lexLt] at h2
    | cons y ys =>
      simp only [lexLt] at h1 h2
      by_cases hlt : x.toNat < y.toNat
      · simp [hlt] at h1
      · by_cases heq : x.toNat = y.toNat
        · cases char_eq_of_toNat x y heq
          rw [if_neg hlt, if_pos rfl] at h1
          rw [if_neg hlt, if_pos rfl] at h2
          rw [show xs = ys from ih ys h1 h2]
        · have hgt : y.toNat < x.toNat := by omega
          rw [if_pos hgt] at h2
          exact absurd h2 (by simp)

theorem strLt_eq_of_not_lt (a b : String)
    (h1 : strLt a b = false) (h2 : strLt b a = false) : a = b :=
  String.ext (lexLt_eq_of_not_lt a.data b.data h1 h2)

theorem lexLt_irrefl : ∀ a : List Char, lexLt a a = false := by
  intro a
  induction a with
  | nil => rfl
  | cons x xs ih => simp [lexLt, ih]

theorem strLt_irrefl (a : String) : strLt a a = false := lexLt_irrefl a.data

/-- Totality: two keys that are not strictly ordered either way are equal,
so of two distinct keys one is strictly below the other. -/
theorem strLt_of_ne (a b : String) (hne : a ≠ b) (h : strLt a b = false) :
    strLt b a = true := by
  cases hba : strLt b a with
  | true => rfl
  | false => exact absurd (strLt_eq_of_not_lt a b h hba) hne

/-! ## The std::map embedding

An association list whose keys stay sorted by `strLt`; `mapInsert` is
`m[k] = v` (insert at the sorted position, or replace the value of an
existing key), `mapFind` is `m.find(k)`. -/

/-- Insertion into the sorted association list, as `std::map::operator[]`
followed by assignment behaves. -/
def mapInsert {α : Type} (k : String) (v : α) :
    List (String × α) → List (String × α)
  | [] => [(k, v)]
  | (k', v') :: rest =>
      if strLt k k' then (k, v) :: (k', v') :: rest
      else if k == k' then (k, v) :: rest
      else (k', v') :: mapInsert k v rest

/-- Lookup, as `std::map::find`. -/
def mapFind {α : Type} (k : String) : List (String × α) → Option α
  | [] => none
  | (k', v') :: rest => if k == k' then some v' else mapFind k rest

/-- The keys in iteration order. -/
def mapKeys {α : Type} (m : List (String × α)) : List String :=
  m.map Prod.fst

/-- The sortedness invariant `std::map` maintains on its keys. -/
def KeysSorted {α : Type} (m : List (String × α)) : Prop :=
  List.Chain' (fun a b => strLt a.1 b.1 = true) m

/-- The effect of `mapInsert` on the key list alone. -/
def insertKey (k : String) : List String → List String
  | [] => [k]
  | k' :: rest =>
      if strLt k k' then k :: k' :: rest
      else if k == k' then k :: rest
      else k' :: insertKey k rest

theorem mapKeys_mapInsert {α : Type} (k : String) (v : α)
    (m : List (String × α)) :
    mapKeys (mapInsert k v m) = insertKey k (mapKeys m) := by
  induction m with
  | nil => rfl
  | cons e rest ih =>
    obtain ⟨k', v'⟩ := e
    by_cases h1 : strLt k k' = true
    · simp [mapInsert, insertKey, h1, mapKeys]
    · by_cases h2 : (k == k') = true
      · simp [mapInsert, insertKey, h1, h2, mapKeys]
      · simp only [mapInsert, mapKeys, insertKey, h1, h2, Bool.false_eq_true,
          if_false, List.map_cons]
        simpa [mapKeys] using ih

theorem mem_insertKey (k n : String) (l : List String) :
    n ∈ insertKey k l ↔ n = k ∨ n ∈ l := by
  induction l with
  | nil => simp [insertKey]
  | cons k' rest ih =>
    by_cases h1 : strLt k k' = true
    · simp [insertKey, h1]
    · by_cases h2 : (k == k') = true
      · have hk : k = k' := by simpa using h2
        subst hk
        simp [insertKey, h1, h2]
      · simp only [insertKey, h1, h2, Bool.false_eq_true, if_false,
          List.mem_cons, ih]
        tauto

theorem head_insertKey (k : String) (l : List String) :
    (insertKey k l).head? = some k ∨ (insertKey k l).head? = l.head? := by
  cases l with
  | nil => left; rfl
  | cons k' rest =>
    by_cases h1 : strLt k k' = true
    · left; simp [insertKey, h1]
    · by_cases h2 : (k == k') = true
      · left; simp [insertKey, h1, h2]
      · right; simp [insertKey, h1, h2]

theorem sorted_insertKey (k : String) (l : List String)
    (hs : List.Chain' (fun a b => strLt a b = true) l) :
    List.Chain' (fun a b => strLt a b = true) (insertKey k l) := by
  induction l with
  | nil => simp [insertKey]
  | cons k' rest ih =>
    have hrest : List.Chain' (fun a b => strLt a b = true) rest :=
      (List.chain'_cons'.mp hs).2
    by_cases h1 : strLt k k' = true
    · simp only [insertKey, h1, if_true]
      exact List.chain'_cons'.mpr ⟨fun y hy => by
        cases rest <;> simp_all, hs⟩
    · by_cases h2 : (k == k') = true
      · have hk : k = k' := by simpa using h2
        subst hk
        simpa [insertKey, h1, h2] using hs
      · have hgt : strLt k' k = true :=
          strLt_of_ne k k' (by simpa using h2) (by simpa using h1)
        simp only [insertKey, h1, h2, Bool.false_eq_true, if_false]
        refine List.chain'_cons'.mpr ⟨?_, ih hrest⟩
        intro y hy
        rcases head_insertKey k rest with hh | hh
        · rw [hy] at hh
          cases hh
          exact hgt
        · rw [hy] at hh
          cases rest with
          | nil => simp [insertKey] at hh
          | cons f fs =>
            have hyf : y = f := by
              simpa using hh
            rw [hyf]
            exact (List.chain'_cons'.mp hs).1 f rfl

/-! ## Effect definitions

The type-specific parameter blocks the Windows build sends to the device
(`DICONSTANTFORCE`, `DIPERIODIC`, `DIRAMPFORCE`, `DICONDITION`), and the
builders `CreateConstantEffect` / `CreatePeriodicEffect` / `CreateRampEffect`
/ `CreateConditionEffect` that fill them in. -/

/-- Kind-specific parameter block, one variant per effect kind. -/
inductive TypeParams : Type where
  | constant (magnitude : Int)
  | periodic (magnitude : Int) (offset : Int) (phase : Nat) (period : Nat)
  | ramp (startLevel endLevel : Int)
  | condition (offset posCoeff negCoeff : Int) (posSat negSat : Nat)
      (deadband : Int)
deriving DecidableEq

/-- Block built by `CreateConstantEffect`: `lMagnitude = abs(force)`. -/
def mkConstantParams (force : Int) : TypeParams := .constant |force|

/-- Block built by `CreatePeriodicEffect`: magnitude as given, zero offset,
phase defaulted to 0, `dwPeriod = period * 1000` (ms to microseconds). -/
def mkPeriodicParams (magnitude period : Nat) : TypeParams :=
  .periodic (Int.ofNat magnitude) 0 0 (period * 1000)

/-- Block built by `CreateRampEffect`: `lStart = abs(startForce)`,
`lEnd = abs(endForce)`. -/
def mkRampParams (startForce endForce : Int) : TypeParams :=
  .ramp |startForce| |endForce|

/-- Block built by `CreateConditionEffect`: same coefficient and saturation
on both halves, deadband fixed at 500. -/
def mkConditionParams (coefficient : Int) (saturation : Nat) : TypeParams :=
  .condition 0 coefficient coefficient saturation saturation 500

/-- The 14 creation calls of `CreateAllEffects` (Windows build), in source
order with the source's parameters. -/
def effectDefs : List (String × TypeParams) :=
  [("Constant_Droite", mkConstantParams 8000),
   ("Constant_Gauche", mkConstantParams (-8000)),
   ("Constant_Fort", mkConstantParams 10000),
   ("Constant_Faible", mkConstantParams 4000),
   ("Sinus", mkPeriodicParams 6000 200),
   ("Carre", mkPeriodicParams 7000 150),
   ("Triangle", mkPeriodicParams 5000 300),
   ("Dent_Scie", mkPeriodicParams 6000 180),
   ("Rampe_Montante", mkRampParams 2000 10000),
   ("Rampe_Descendante", mkRampParams 10000 2000),
   ("Ressort", mkConditionParams 8000 10000),
   ("Amortissement", mkConditionParams 7000 10000),
   ("Inertie", mkConditionParams 6000 10000),
   ("Friction", mkConditionParams 5000 10000)]

/-- The names in the order the `Create*` calls are made. -/
def insertionOrderNames : List String := effectDefs.map Prod.fst

/-! ## Catalog construction (`CreateAllEffects`)

Each `CreateEffect` call either succeeds (the effect is stored in
`m_Effects`) or fails (it is only logged); `accept` is the oracle giving the
device's answer for each call.  The running pair is
(`m_Effects`, `success`): `success` is and-ed with every call's outcome, and
the function returns `success && !m_Effects.empty()`.  `m_EffectNames` is
then filled by iterating the map. -/

/-- One `success &= Create...Effect(...)` line. -/
def buildStep (accept : String → Bool)
    (st : List (String × TypeParams) × Bool) (d : String × TypeParams) :
    List (String × TypeParams) × Bool :=
  if accept d.1 then (mapInsert d.1 d.2 st.1, st.2) else (st.1, false)

/-- Result of `CreateAllEffects`: the map `m_Effects`, the navigation list
`m_EffectNames`, and the returned Bool. -/
structure BuildResult where
  effects : List (String × TypeParams)
  names : List String
  ok : Bool
deriving DecidableEq

/-- The whole of `CreateAllEffects` (Windows build; the Linux build is the
same control flow over the same 14 names). -/
def createAllEffects (accept : String → Bool) : BuildResult :=
  let st := effectDefs.foldl (buildStep accept) ([], true)
  { effects := st.1, names := mapKeys st.1, ok := st.2 && !st.1.isEmpty }

theorem buildFold_ok (accept : String → Bool) :
    ∀ (defs : List (String × TypeParams)) (m : List (String × TypeParams))
      (b : Bool),
      (defs.foldl (buildStep accept) (m, b)).2 =
        (b && defs.all fun d => accept d.1) := by
  intro defs
  induction defs with
  | nil => intro m b; simp
  | cons d ds ih =>
    intro m b
    by_cases h : accept d.1 = true
    · simp [buildStep, h, ih]
    · simp [buildStep, h, ih, Bool.and_comm]

theorem buildFold_mem (accept : String → Bool) :
    ∀ (defs : List (String × TypeParams)) (m : List (String × TypeParams))
      (b : Bool) (n : String),
      n ∈ mapKeys (defs.foldl (buildStep accept) (m, b)).1 ↔
        n ∈ mapKeys m ∨ (accept n = true ∧ n ∈ defs.map Prod.fst) := by
  intro defs
  induction defs with
  | nil => intro m b n; simp
  | cons d ds ih =>
    intro m b n
    by_cases h : accept d.1 = true
    · simp only [List.foldl_cons, buildStep, h, if_true]
      rw [ih]
      rw [mapKeys_mapInsert, mem_insertKey]
      by_cases hn : n = d.1
      · subst hn
        simp [h]
      · simp [hn]
    · simp only [List.foldl_cons, buildStep, h, Bool.false_eq_true, if_false]
      rw [ih]
      by_cases hn : n = d.1
      · subst hn
        simp [h]
      · simp [hn]

theorem buildFold_sorted (accept : String → Bool) :
    ∀ (defs : List (String × TypeParams)) (m : List (String × TypeParams))
      (b : Bool),
      List.Chain' (fun a b => strLt a b = true) (mapKeys m) →
      List.Chain' (fun a b => strLt a b = true)
        (mapKeys (defs.foldl (buildStep accept) (m, b)).1) := by
  intro defs
  induction defs with
  | nil => intro m b hs; simpa using hs
  | cons d ds ih =>
    intro m b hs
    by_cases h : accept d.1 = true
    · simp only [List.foldl_cons, buildStep, h, if_true]
      exact ih _ _ (by rw [mapKeys_mapInsert]; exact sorted_insertKey _ _ hs)
    · simp only [List.foldl_cons, buildStep, h, Bool.false_eq_true, if_false]
      exact ih _ _ hs

theorem createAllEffects_names_eq (accept : String → Bool) :
    (createAllEffects accept).names =
      mapKeys (effectDefs.foldl (buildStep accept) ([], true)).1 := rfl

theorem createAllEffects_ok_eq (accept : String → Bool) :
    (createAllEffects accept).ok =
      ((effectDefs.foldl (buildStep accept) ([], true)).2 &&
        !(effectDefs.foldl (buildStep accept) ([], true)).1.isEmpty) := rfl

theorem createAllEffects_mem (accept : String → Bool) (n : String) :
    n ∈ (createAllEffects accept).names ↔
      accept n = true ∧ n ∈ insertionOrderNames := by
  rw [createAllEffects_names_eq, buildFold_mem]
  simp [insertionOrderNames, mapKeys]

set_option maxRecDepth 8000

/-- C1, counterexample.  The claim says catalog construction fails only when
zero definitions register.  With the device rejecting exactly one definition
(`Sinus`), 13 of the 14 effects are in the catalog, yet `CreateAllEffects`
returns false, so `Initialize` aborts. -/
theorem createAllEffects_one_rejected_fails :
    (createAllEffects (fun n => !(n == "Sinus"))).ok = false ∧
    (createAllEffects (fun n => !(n == "Sinus"))).names.length = 13 := by
  decide

/-- C1 (amended): catalog construction drops every effect definition whose
device registration fails and keeps the others (a name is in the catalog
exactly when its creation call was accepted), but the overall construction
(and thus `Initialize`) succeeds exactly when all 14 definitions register:
`success` is and-ed over every creation call, so any failure — not only
the loss of all 14 — makes `CreateAllEffects` return false. -/
theorem createAllEffects_keeps_accepted_ok_iff_all (accept : String → Bool) :
    ((createAllEffects accept).ok = true ↔
      ∀ d ∈ effectDefs, accept d.1 = true) ∧
    (∀ n, n ∈ (createAllEffects accept).names ↔
      accept n = true ∧ n ∈ insertionOrderNames) := by
  refine ⟨?_, fun n => createAllEffects_mem accept n⟩
  rw [createAllEffects_ok_eq]
  constructor
  · intro hok
    have h2 := buildFold_ok accept effectDefs [] true
    rw [Bool.and_eq_true] at hok
    rw [hok.1] at h2
    intro d hd
    have hallb : (effectDefs.all fun d => accept d.1) = true := by
      simpa using h2.symm
    exact List.all_eq_true.mp hallb d hd
  · intro hall
    have h2 := buildFold_ok accept effectDefs [] true
    have hallb : (effectDefs.all fun d => accept d.1) = true :=
      List.all_eq_true.mpr hall
    rw [hallb] at h2
    simp only [Bool.and_true] at h2
    rw [h2]
    have hmem : "Constant_Droite" ∈
        mapKeys (effectDefs.foldl (buildStep accept) ([], true)).1 := by
      rw [buildFold_mem]
      refine Or.inr ⟨?_, by simp [effectDefs]⟩
      exact hall ("Constant_Droite", mkConstantParams 8000) (by simp [effectDefs])
    cases hlist : (effectDefs.foldl (buildStep accept) ([], true)).1 with
    | nil => rw [hlist] at hmem; simp [mapKeys] at hmem
    | cons e rest => simp

/-- C2, counterexample.  The claim says the catalog's name list preserves
insertion order.  With every registration succeeding, the first `Create*`
call is for `Constant_Droite`, yet `m_EffectNames` (built by iterating the
`std::map`) starts with `Amortissement` and differs from the insertion
order as a list. -/
theorem effectNames_not_insertion_order :
    (createAllEffects (fun _ => true)).names.head? = some "Amortissement" ∧
    insertionOrderNames.head? = some "Constant_Droite" ∧
    (createAllEffects (fun _ => true)).names ≠ insertionOrderNames := by
  decide

/-- C2 (amended): the list of effect names used by `next()`/`previous()`
and shown as the catalog listing enumerates the successfully registered
effects in ascending lexicographic name order — the iteration order of the
`std::map` keyed on the name — not in the order the `Create*` calls were
made; it contains exactly the names whose registration was accepted. -/
theorem effectNames_sorted_lexicographic (accept : String → Bool) :
    List.Chain' (fun a b => strLt a b = true)
      (createAllEffects accept).names ∧
    (∀ n, n ∈ (createAllEffects accept).names ↔
      accept n = true ∧ n ∈ insertionOrderNames) := by
  refine ⟨?_, fun n => createAllEffects_mem accept n⟩
  rw [createAllEffects_names_eq]
  exact buildFold_sorted accept effectDefs [] true (by simp [mapKeys])

/-! ## Intensity arithmetic (`AdjustIntensity`)

The Windows build stores `m_ForceIntensity` in a 32-bit `LONG` with
`MAX_FORCE = 10000`; the Linux build stores it in an `int16_t` with
`MAX_FORCE = 32767`.  In both, `m_ForceIntensity += delta;` runs first and
the clamp `std::max(-MAX_FORCE, std::min(MAX_FORCE, ...))` runs second.  On
Linux the compound assignment computes in `int` and then narrows the sum to
`int16_t`, which wraps modulo 2^16 before the clamp can see the value. -/

/-- Two's-complement narrowing to 16 bits (the `int16_t` assignment). -/
def toInt16 (x : Int) : Int := (x + 32768) % 65536 - 32768

/-- Two's-complement narrowing to 32 bits (the Windows `LONG`). -/
def toInt32 (x : Int) : Int := (x + 2147483648) % 4294967296 - 2147483648

/-- The stored intensity after one Windows `AdjustIntensity(delta)` call. -/
def adjustedIntensityWin (i delta : Int) : Int :=
  max (-10000) (min 10000 (toInt32 (i + delta)))

/-- The stored intensity after one Linux `AdjustIntensity(delta)` call:
the sum narrows to `int16_t` first, then the `±32767` clamp applies. -/
def adjustedIntensityLinux (i delta : Int) : Int :=
  max (-32767) (min 32767 (toInt16 (i + delta)))

/-- A sequence of Linux `AdjustIntensity` calls, one delta per entry. -/
def applyAdjustLinux (deltas : List Int) (i : Int) : Int :=
  deltas.foldl adjustedIntensityLinux i

/-- C3: the claim says repeated positive adjustments clamp at the maximum
rather than wrapping or jumping sign.  On the Linux build the `int16_t`
compound assignment wraps before the clamp: starting from the initial
intensity 16000, nine presses of `+` (delta +2000, the program's own key
step) leave the stored intensity at -31536 — a sign jump — instead of
saturating at 32767.  The value does stay inside [-32767, 32767], and the
clamp code right below the addition shows saturation was the intent, so
this is a defect of the code, not of the claim. -/
theorem adjustIntensityLinux_sign_jump :
    applyAdjustLinux (List.replicate 8 2000) 16000 = 32000 ∧
    applyAdjustLinux (List.replicate 9 2000) 16000 = -31536 ∧
    applyAdjustLinux (List.replicate 9 2000) 16000 < 0 := by
  refine ⟨by decide, by decide, by decide⟩

/-! ## Cursor navigation (`NextEffect` / `PreviousEffect`)

Both builds: early return when `m_EffectNames` is empty, otherwise
`(index + 1) % size` resp. `(index - 1 + size) % size`.  The C++ previous
computes in `size_t`; for `0 <= index < size` the unsigned wrap of
`index - 1 + size` cancels exactly, so the value is the mathematical
`(index + size - 1) mod size` modelled here. -/

/-- Cursor index after `NextEffect` on a catalog of `size` entries. -/
def nextIndex (size idx : Nat) : Nat :=
  if size = 0 then idx else (idx + 1) % size

/-- Cursor index after `PreviousEffect` on a catalog of `size` entries. -/
def prevIndex (size idx : Nat) : Nat :=
  if size = 0 then idx else (idx + size - 1) % size

/-- One navigation keypress. -/
inductive NavOp : Type where
  | next
  | previous
deriving DecidableEq

def applyNav (size idx : Nat) : NavOp → Nat
  | .next => nextIndex size idx
  | .previous => prevIndex size idx

/-- Cursor index after a sequence of `next`/`previous` keypresses. -/
def navigate (size : Nat) (ops : List NavOp) (idx : Nat) : Nat :=
  ops.foldl (applyNav size) idx

theorem applyNav_lt (size idx : Nat) (op : NavOp) (h : idx < size) :
    applyNav size idx op < size := by
  have hpos : size ≠ 0 := by omega
  cases op <;> simp [applyNav, nextIndex, prevIndex, hpos] <;>
    exact Nat.mod_lt _ (by omega)

theorem navigate_lt (size : Nat) (ops : List NavOp) :
    ∀ idx : Nat, idx < size → navigate size ops idx < size := by
  induction ops with
  | nil => intro idx h; exact h
  | cons op rest ih =>
    intro idx h
    exact ih (applyNav size idx op) (applyNav_lt size idx op h)

theorem navigate_replicate_next (size : Nat) :
    ∀ (k : Nat) (idx : Nat), idx < size →
      navigate size (List.replicate k NavOp.next) idx = (idx + k) % size := by
  intro k
  induction k with
  | zero =>
    intro idx h
    simpa [navigate] using (Nat.mod_eq_of_lt h).symm
  | succ n ih =>
    intro idx h
    have hpos : size ≠ 0 := by omega
    have hstep : navigate size (List.replicate (n + 1) NavOp.next) idx =
        navigate size (List.replicate n NavOp.next) ((idx + 1) % size) := by
      simp [List.replicate_succ, navigate, applyNav, nextIndex, hpos]
    rw [hstep, ih _ (Nat.mod_lt _ (by omega))]
    rw [Nat.mod_add_mod]
    rw [show idx + 1 + n = idx + (n + 1) from by omega]

theorem navigate_empty (ops : List NavOp) :
    ∀ idx : Nat, navigate 0 ops idx = idx := by
  induction ops with
  | nil => intro idx; rfl
  | cons op rest ih =>
    intro idx
    cases op <;> simpa [navigate, applyNav, nextIndex, prevIndex] using ih idx

/-- C6: for a catalog of size N >= 1 and every sequence of `next`/`previous`
keypresses the cursor stays in `[0, N)`; N consecutive `next` presses return
the cursor to its starting index; and on an empty catalog every navigation
sequence is a no-op (the functions are total, so nothing is thrown). -/
theorem navigation_cursor_invariants (size idx : Nat) (ops : List NavOp)
    (h : idx < size) :
    navigate size ops idx < size ∧
    navigate size (List.replicate size NavOp.next) idx = idx ∧
    (∀ ops2 : List NavOp, ∀ j : Nat, navigate 0 ops2 j = j) := by
  refine ⟨navigate_lt size ops idx h, ?_, fun ops2 j => navigate_empty ops2 j⟩
  rw [navigate_replicate_next size size idx h, Nat.add_mod_right]
  exact Nat.mod_eq_of_lt h

/-- C6, witness: catalog of 14 effects, cursor at 3, a concrete keypress
sequence. -/
theorem navigation_cursor_invariants_witness :
    navigate 14 [NavOp.next, NavOp.previous, NavOp.previous] 3 < 14 ∧
    navigate 14 (List.replicate 14 NavOp.next) 3 = 3 ∧
    (∀ ops2 : List NavOp, ∀ j : Nat, navigate 0 ops2 j = j) :=
  navigation_cursor_invariants 14 3 [NavOp.next, NavOp.previous, NavOp.previous]
    (by decide)

/-! ## The Device Session state (Windows build)

State and device-interaction model for `PlayCurrentEffect`,
`StopAllEffects` and `AdjustIntensity`.  Each registered effect owns a
device-resident slot holding its current type-specific parameter block,
whether it has been downloaded, and whether the device reports it playing.
The answers the device gives to the (at most two) `Start` calls and the
(at most one) `Download` call inside one `PlayCurrentEffect` invocation are
a `PlayOracle`; the native commands actually issued are recorded as a
`DevCmd` trace. -/

/-- Outcome of one `IDirectInputEffect::Start` call, as the source
discriminates it (`DIERR_NOTEXCLUSIVEACQUIRED`, `DIERR_INPUTLOST`,
`DIERR_NOTDOWNLOADED`, anything else). -/
inductive StartResult : Type where
  | ok
  | notExclusiveAcquired
  | inputLost
  | notDownloaded
  | otherError
deriving DecidableEq

/-- Device-resident state of one registered effect. -/
structure EffSlot where
  params : TypeParams
  downloaded : Bool
  playing : Bool
deriving DecidableEq

/-- The fields of `ForceEffectSimulator` the playback claims touch. -/
structure SessionState where
  effects : List (String × EffSlot)
  effectNames : List String
  currentIndex : Nat
  effectPlaying : Bool
  deviceAcquired : Bool
  forceIntensity : Int
deriving DecidableEq

/-- Device answers for one `PlayCurrentEffect` invocation. -/
structure PlayOracle where
  start1 : StartResult
  downloadOk : Bool
  start2 : StartResult
deriving DecidableEq

/-- A native command sent to the device. -/
inductive DevCmd : Type where
  | stopEffect (name : String)
  | startEffect (name : String)
  | downloadEffect (name : String)
deriving DecidableEq

/-- The effect the cursor points at: `m_EffectNames[m_CurrentEffectIndex]`
(the index is always in range in the program; out of range defaults). -/
def currentName (s : SessionState) : String :=
  s.effectNames.getD s.currentIndex ""

def setPlaying (name : String) (b : Bool) (m : List (String × EffSlot)) :
    List (String × EffSlot) :=
  m.map fun e => if e.1 == name then (e.1, { e.2 with playing := b }) else e

def setDownloaded (name : String) (b : Bool) (m : List (String × EffSlot)) :
    List (String × EffSlot) :=
  m.map fun e => if e.1 == name then (e.1, { e.2 with downloaded := b }) else e

def setParams (name : String) (p : TypeParams) (m : List (String × EffSlot)) :
    List (String × EffSlot) :=
  m.map fun e => if e.1 == name then (e.1, { e.2 with params := p }) else e

/-- `StopAllEffects`: `Stop()` on every registered effect, then
`m_bEffectPlaying = false`.  Returns the new state and the command trace. -/
def stopAllEffects (s : SessionState) : SessionState × List DevCmd :=
  ({ s with
      effects := s.effects.map fun e => (e.1, { e.2 with playing := false }),
      effectPlaying := false },
   s.effects.map fun e => DevCmd.stopEffect e.1)

/-- `PlayCurrentEffect`: early return on an empty name list; otherwise
`StopAllEffects()` first, then look the current name up in `m_Effects` and
issue `Start`.  On `DIERR_NOTDOWNLOADED` issue one `Download`; if that
succeeds, retry `Start` exactly once.  On every other failure (including
`DIERR_INPUTLOST`) only log: no state field changes and no retry. -/
def playCurrentEffect (o : PlayOracle) (s : SessionState) :
    SessionState × List DevCmd :=
  if s.effectNames.isEmpty then (s, [])
  else
    let sc := stopAllEffects s
    let s1 := sc.1
    let name := currentName s1
    match mapFind name s1.effects with
    | none => (s1, sc.2)
    | some _ =>
      match o.start1 with
      | .ok =>
          ({ s1 with effects := setPlaying name true s1.effects,
                     effectPlaying := true },
           sc.2 ++ [DevCmd.startEffect name])
      | .notDownloaded =>
          if o.downloadOk then
            let s2 := { s1 with effects := setDownloaded name true s1.effects }
            match o.start2 with
            | .ok =>
                ({ s2 with effects := setPlaying name true s2.effects,
                           effectPlaying := true },
                 sc.2 ++ [DevCmd.startEffect name, DevCmd.downloadEffect name,
                          DevCmd.startEffect name])
            | _ =>
                (s2, sc.2 ++ [DevCmd.startEffect name,
                              DevCmd.downloadEffect name,
                              DevCmd.startEffect name])
          else
            (s1, sc.2 ++ [DevCmd.startEffect name, DevCmd.downloadEffect name])
      | _ => (s1, sc.2 ++ [DevCmd.startEffect name])

/-- Number of `Start` commands in a trace. -/
def countStart (tr : List DevCmd) : Nat :=
  tr.countP fun c => match c with | .startEffect _ => true | _ => false

/-- Number of `Download` commands in a trace. -/
def countDownload (tr : List DevCmd) : Nat :=
  tr.countP fun c => match c with | .downloadEffect _ => true | _ => false

/-- Number of effects the device reports playing. -/
def playingCount (m : List (String × EffSlot)) : Nat :=
  m.countP fun e => e.2.playing

/-! ## Intensity update of the resident effect (`AdjustIntensity`, Windows)

After clamping the session intensity, the code decides by substring search
on the current effect's NAME which parameter block to rebuild and push with
`SetParameters(..., DIEP_TYPESPECIFICPARAMS)`: names containing "Constant"
get a fresh `DICONSTANTFORCE` with `lMagnitude = m_ForceIntensity` (signed,
no abs here), names containing "Sinus"/"Carre"/"Triangle"/"Dent_Scie" get a
fresh `DIPERIODIC` with magnitude `abs(m_ForceIntensity)`, offset 0, phase
0 and period `200 * 1000` microseconds; every other name gets no push at
all.  Playback is never stopped by this function. -/

def isPrefixCL : List Char → List Char → Bool
  | [], _ => true
  | _ :: _, [] => false
  | a :: as, b :: bs => a == b && isPrefixCL as bs

/-- Substring test on character lists, as `std::string::find != npos`. -/
def infixCL (p : List Char) : List Char → Bool
  | [] => isPrefixCL p []
  | b :: bs => isPrefixCL p (b :: bs) || infixCL p bs

def containsSub (pat s : String) : Bool := infixCL pat.data s.data

/-- The periodic-name test of `AdjustIntensity`. -/
def periodicNameHit (name : String) : Bool :=
  containsSub "Sinus" name || containsSub "Carre" name ||
  containsSub "Triangle" name || containsSub "Dent_Scie" name

/-- `AdjustIntensity(delta)` on the session state (Windows build). -/
def adjustIntensity (delta : Int) (s : SessionState) : SessionState :=
  let i2 := adjustedIntensityWin s.forceIntensity delta
  let s1 : SessionState := { s with forceIntensity := i2 }
  if s1.effectPlaying && !s1.effectNames.isEmpty then
    let name := currentName s1
    match mapFind name s1.effects with
    | none => s1
    | some _ =>
        if containsSub "Constant" name then
          { s1 with effects := setParams name (.constant i2) s1.effects }
        else if periodicNameHit name then
          { s1 with effects :=
              setParams name (.periodic |i2| 0 0 (200 * 1000)) s1.effects }
        else s1
  else s1

/-- The catalog's Ramp- and Condition-kind effect names. -/
def rampConditionNames : List String :=
  ["Rampe_Montante", "Rampe_Descendante", "Ressort", "Amortissement",
   "Inertie", "Friction"]

/-- The catalog's Periodic-kind effect names. -/
def periodicNames : List String := ["Sinus", "Carre", "Triangle", "Dent_Scie"]

/-- C8: when the current effect is one of the catalog's Ramp or Condition
effects, `AdjustIntensity` is silently a no-op on the device: it completes
normally (the source function returns void, there is no failure path), the
resident parameter block of every registered effect is untouched, playback
is not stopped, and only the session-level intensity field changes. -/
theorem adjustIntensity_ramp_condition_noop (s : SessionState) (delta : Int)
    (h : currentName s ∈ rampConditionNames) :
    adjustIntensity delta s =
      { s with forceIntensity := adjustedIntensityWin s.forceIntensity delta } := by
  simp only [rampConditionNames, List.mem_cons, List.mem_singleton] at h
  have hc : containsSub "Constant" (currentName s) = false := by
    rcases h with h | h | h | h | h | h | h
    case inr.inr.inr.inr.inr.inr => simp at h
    all_goals rw [h]
    all_goals decide
  have hp : periodicNameHit (currentName s) = false := by
    rcases h with h | h | h | h | h | h | h
    case inr.inr.inr.inr.inr.inr => simp at h
    all_goals rw [h]
    all_goals decide
  unfold adjustIntensity
  by_cases hplay : (s.effectPlaying && !s.effectNames.isEmpty) = true
  · simp only [hplay, if_true]
    have hcur : currentName { s with
        forceIntensity := adjustedIntensityWin s.forceIntensity delta } =
        currentName s := rfl
    rw [hcur]
    cases hfind : mapFind (currentName s)
        ({ s with forceIntensity :=
            adjustedIntensityWin s.forceIntensity delta } : SessionState).effects with
    | none => rfl
    | some slot => simp [hc, hp]
  · simp only [Bool.not_eq_true] at hplay
    simp [hplay]

/-- C8, witness: a session whose cursor is on the Condition effect
`Ressort`. -/
theorem adjustIntensity_ramp_condition_noop_witness :
    adjustIntensity 500
      { effects := [("Ressort", ⟨mkConditionParams 8000 10000, true, true⟩)],
        effectNames := ["Ressort"], currentIndex := 0, effectPlaying := true,
        deviceAcquired := true, forceIntensity := 5000 } =
      { effects := [("Ressort", ⟨mkConditionParams 8000 10000, true, true⟩)],
        effectNames := ["Ressort"], currentIndex := 0, effectPlaying := true,
        deviceAcquired := true, forceIntensity := 5500 } := by
  have h := adjustIntensity_ramp_condition_noop
    { effects := [("Ressort", ⟨mkConditionParams 8000 10000, true, true⟩)],
      effectNames := ["Ressort"], currentIndex := 0, effectPlaying := true,
      deviceAcquired := true, forceIntensity := 5000 } 500 (by decide)
  rw [h]
  decide

/-! ## Helper lemmas about the session maps and traces -/

theorem mapFind_mapValues {α β : Type} (g : α → β) (k : String) :
    ∀ m : List (String × α),
      mapFind k (m.map fun e => (e.1, g e.2)) = (mapFind k m).map g := by
  intro m
  induction m with
  | nil => rfl
  | cons e rest ih =>
    by_cases hk : (k == e.1) = true
    · simp [mapFind, hk]
    · simp [mapFind, hk, ih]

theorem countStart_append (t1 t2 : List DevCmd) :
    countStart (t1 ++ t2) = countStart t1 + countStart t2 :=
  List.countP_append _ _ _

theorem countDownload_append (t1 t2 : List DevCmd) :
    countDownload (t1 ++ t2) = countDownload t1 + countDownload t2 :=
  List.countP_append _ _ _

theorem countStart_stopTrace (s : SessionState) :
    countStart (stopAllEffects s).2 = 0 := by
  simp only [stopAllEffects, countStart, List.countP_map]
  exact List.countP_eq_zero.mpr (fun e _ => by simp)

theorem countDownload_stopTrace (s : SessionState) :
    countDownload (stopAllEffects s).2 = 0 := by
  simp only [stopAllEffects, countDownload, List.countP_map]
  exact List.countP_eq_zero.mpr (fun e _ => by simp)

theorem playingCount_stopAll (s : SessionState) :
    playingCount (stopAllEffects s).1.effects = 0 := by
  simp only [stopAllEffects, playingCount, List.countP_map]
  exact List.countP_eq_zero.mpr (fun e _ => by simp)

theorem playingCount_setDownloaded (name : String) (b : Bool) :
    ∀ m : List (String × EffSlot),
      playingCount (setDownloaded name b m) = playingCount m := by
  intro m
  simp only [playingCount, setDownloaded, List.countP_map]
  apply List.countP_congr
  intro e _
  by_cases hk : e.1 = name <;> simp [hk]

theorem setPlaying_not_mem (name : String) (b : Bool) :
    ∀ m : List (String × EffSlot), name ∉ mapKeys m → setPlaying name b m = m := by
  intro m
  induction m with
  | nil => intro _; rfl
  | cons e rest ih =>
    intro hmem
    have h1 : e.1 ≠ name := by
      intro he
      exact hmem (by simp [mapKeys, he])
    have h2 : name ∉ mapKeys rest := by
      intro hr
      exact hmem (by simp [mapKeys] at hr ⊢; exact Or.inr hr)
    have hkb : (e.1 == name) = false := by simpa using h1
    simp only [setPlaying, List.map_cons, hkb, Bool.false_eq_true, if_false]
    have := ih h2
    simp only [setPlaying] at this
    rw [this]

theorem playingCount_setPlaying_true (name : String) :
    ∀ m : List (String × EffSlot),
      (mapKeys m).Nodup →
      (∀ e ∈ m, e.2.playing = false) →
      (mapFind name m).isSome = true →
      playingCount (setPlaying name true m) = 1 := by
  intro m
  induction m with
  | nil => intro _ _ hf; simp [mapFind] at hf
  | cons e rest ih =>
    intro hnd hall hf
    by_cases hk : (e.1 == name) = true
    · have hkeq : e.1 = name := by simpa using hk
      have hnotin : name ∉ mapKeys rest := by
        rw [← hkeq]
        exact (List.nodup_cons.mp (by simpa [mapKeys] using hnd)).1
      have hfix := setPlaying_not_mem name true rest hnotin
      have hrest0 : playingCount rest = 0 :=
        List.countP_eq_zero.mpr (fun x hx => by
          simpa using hall x (List.mem_cons_of_mem e hx))
      simp only [setPlaying, List.map_cons, hk, if_true]
      have : playingCount ((e.1, { e.2 with playing := true }) ::
          (rest.map fun x => if x.1 == name then (x.1, { x.2 with playing := true }) else x)) =
          1 + playingCount (rest.map fun x =>
            if x.1 == name then (x.1, { x.2 with playing := true }) else x) := by
        simp [playingCount, List.countP_cons]
        omega
      rw [this]
      have hfix2 : (rest.map fun x =>
          if x.1 == name then (x.1, { x.2 with playing := true }) else x) = rest := by
        simpa [setPlaying] using hfix
      rw [hfix2, hrest0]
    · have hne2 : (name == e.1) = false := by
        simp only [beq_eq_false_iff_ne, ne_eq]
        intro hne
        simp [beq_iff_eq, hne] at hk
      have hf2 : (mapFind name rest).isSome = true := by
        simpa [mapFind, hne2] using hf
      have hnd2 : (mapKeys rest).Nodup :=
        (List.nodup_cons.mp (by simpa [mapKeys] using hnd)).2
      have hcount := ih hnd2
        (fun x hx => hall x (List.mem_cons_of_mem e hx)) hf2
      have hehead : e.2.playing = false := hall e (List.mem_cons_self e rest)
      simp only [setPlaying, List.map_cons, hk, Bool.false_eq_true, if_false]
      simp only [setPlaying] at hcount
      simp [playingCount, List.countP_cons, hehead] at hcount ⊢
      omega

def sOneSinus : SessionState :=
  { effects := [("Sinus", ⟨mkPeriodicParams 6000 200, true, false⟩)],
    effectNames := ["Sinus"], currentIndex := 0, effectPlaying := false,
    deviceAcquired := true, forceIntensity := 5000 }

/-- C4, counterexample: the claim says that when the native start command
reports lost ownership, play transitions the acquisition state to Lost.  In
a session holding the catalog effect `Sinus` with the device acquired, a
play whose `Start` returns `DIERR_INPUTLOST` leaves `m_bDeviceAcquired`
still true — the flag is never cleared on this path — while the play itself
fails softly (`m_bEffectPlaying` stays false) after exactly one start
attempt. -/
theorem play_inputLost_keeps_acquired :
    ((playCurrentEffect ⟨.inputLost, false, .ok⟩ sOneSinus).1.deviceAcquired = true) ∧
    ((playCurrentEffect ⟨.inputLost, false, .ok⟩ sOneSinus).1.effectPlaying = false) ∧
    countStart (playCurrentEffect ⟨.inputLost, false, .ok⟩ sOneSinus).2 = 1 := by
  decide

/-- C4 (amended): when the native start command inside play reports that
device ownership was lost (`DIERR_INPUTLOST`), play returns a soft failure
to the caller (the playing flag stays false) and does not retry the start;
but it does NOT transition the acquisition state — `m_bDeviceAcquired` is
left exactly as it was, and only the polling loop's own failed
`Poll`/`GetDeviceState` later marks the loss.  Reacquisition is still left
to the polling loop's next cycle. -/
theorem play_inputLost_soft_fail (s : SessionState) (o : PlayOracle)
    (hne : s.effectNames.isEmpty = false)
    (h1 : o.start1 = StartResult.inputLost) :
    (playCurrentEffect o s).1.deviceAcquired = s.deviceAcquired ∧
    (playCurrentEffect o s).1.effectPlaying = false ∧
    countStart (playCurrentEffect o s).2 ≤ 1 ∧
    countDownload (playCurrentEffect o s).2 = 0 := by
  unfold playCurrentEffect
  simp only [hne, Bool.false_eq_true, if_false]
  cases hfind : mapFind (currentName (stopAllEffects s).1)
      (stopAllEffects s).1.effects with
  | none =>
    refine ⟨rfl, rfl, ?_, ?_⟩
    · rw [countStart_stopTrace]; omega
    · rw [countDownload_stopTrace]

  | some slot =>
    simp only [h1]
    refine ⟨rfl, rfl, ?_, ?_⟩
    · rw [countStart_append, countStart_stopTrace]
      simp [countStart]
    · rw [countDownload_append, countDownload_stopTrace]
      simp [countDownload]

theorem mapKeys_setDownloaded (name : String) (b : Bool)
    (m : List (String × EffSlot)) :
    mapKeys (setDownloaded name b m) = mapKeys m := by
  simp only [setDownloaded, mapKeys, List.map_map]
  apply List.map_congr_left
  intro x _
  by_cases hk : x.1 = name <;> simp [hk]

theorem mem_setDownloaded_playing (name : String) (b : Bool)
    (m : List (String × EffSlot))
    (hall : ∀ x ∈ m, x.2.playing = false) :
    ∀ x ∈ setDownloaded name b m, x.2.playing = false := by
  intro x hx
  simp only [setDownloaded] at hx
  obtain ⟨y, hy, rfl⟩ := List.mem_map.mp hx
  by_cases hk : y.1 = name <;> simp [hk] <;> exact hall y hy

theorem mapFind_isSome_setDownloaded (k name : String) (b : Bool) :
    ∀ m : List (String × EffSlot),
      (mapFind k (setDownloaded name b m)).isSome = (mapFind k m).isSome := by
  intro m
  induction m with
  | nil => rfl
  | cons e rest ih =>
    simp only [setDownloaded, List.map_cons]
    by_cases hn : (e.1 == name) = true
    · rw [if_pos hn]
      simp only [mapFind]
      by_cases hk : (k == e.1) = true
      · rw [if_pos hk, if_pos hk]
        rfl
      · rw [if_neg hk, if_neg hk]
        exact ih
    · rw [if_neg hn]
      simp only [mapFind]
      by_cases hk : (k == e.1) = true
      · rw [if_pos hk, if_pos hk]
      · rw [if_neg hk, if_neg hk]
        exact ih

/-- C5: play first issues a stop on every resident handle (its trace begins
with the full `StopAllEffects` trace and nothing after it is a stop
command), so immediately after `StopAllEffects` zero effects are playing,
and after any play that reports success exactly one effect in the catalog
is playing. -/
theorem play_single_active (s : SessionState) (o : PlayOracle)
    (hnd : (mapKeys s.effects).Nodup)
    (hne : s.effectNames.isEmpty = false) :
    playingCount (stopAllEffects s).1.effects = 0 ∧
    ((playCurrentEffect o s).1.effectPlaying = true →
      playingCount (playCurrentEffect o s).1.effects = 1) ∧
    (playCurrentEffect o s).2.take s.effects.length = (stopAllEffects s).2 ∧
    (∀ c ∈ (playCurrentEffect o s).2.drop s.effects.length,
      ∀ n : String, c ≠ DevCmd.stopEffect n) := by
  have hlen : (stopAllEffects s).2.length = s.effects.length := by
    simp [stopAllEffects]
  have hkeys1 : (mapKeys (stopAllEffects s).1.effects).Nodup := by
    simpa [stopAllEffects, mapKeys, List.map_map] using hnd
  have hall1 : ∀ x ∈ (stopAllEffects s).1.effects, x.2.playing = false := by
    intro x hx
    simp only [stopAllEffects] at hx
    obtain ⟨y, hy, rfl⟩ := List.mem_map.mp hx
    rfl
  refine ⟨playingCount_stopAll s, ?_⟩
  unfold playCurrentEffect
  simp only [hne, Bool.false_eq_true, if_false]
  cases hfind : mapFind (currentName (stopAllEffects s).1)
      (stopAllEffects s).1.effects with
  | none =>
    dsimp only
    refine ⟨?_, ?_, ?_⟩
    · intro hpl
      simp [stopAllEffects] at hpl
    · rw [← hlen, List.take_length]
    · rw [← hlen, List.drop_length]
      intro c hc
      simp at hc
  | some slot =>
    cases o.start1 with
    | ok =>
      dsimp only
      refine ⟨?_, ?_, ?_⟩
      · intro _
        exact playingCount_setPlaying_true _ _ hkeys1 hall1 (by rw [hfind]; rfl)
      · rw [List.take_left' hlen]
      · rw [List.drop_left' hlen]
        intro c hc n
        simp at hc
        simp [hc]
    | notDownloaded =>
      dsimp only
      by_cases hdl : o.downloadOk = true
      · rw [if_pos hdl]
        cases hst2 : o.start2 with
        | ok =>
          dsimp only
          refine ⟨?_, ?_, ?_⟩
          · intro _
            apply playingCount_setPlaying_true
            · rw [mapKeys_setDownloaded]
              exact hkeys1
            · exact mem_setDownloaded_playing _ _ _ hall1
            · rw [mapFind_isSome_setDownloaded, hfind]
              rfl
          · rw [List.take_left' hlen]
          · rw [List.drop_left' hlen]
            intro c hc n
            simp at hc
            rcases hc with hc | hc | hc <;> simp [hc]
        | notExclusiveAcquired =>
          dsimp only
          refine ⟨?_, ?_, ?_⟩
          · intro hpl
            simp [stopAllEffects] at hpl
          · rw [List.take_left' hlen]
          · rw [List.drop_left' hlen]
            intro c hc n
            simp at hc
            rcases hc with hc | hc | hc <;> simp [hc]
        | inputLost =>
          dsimp only
          refine ⟨?_, ?_, ?_⟩
          · intro hpl
            simp [stopAllEffects] at hpl
          · rw [List.take_left' hlen]
          · rw [List.drop_left' hlen]
            intro c hc n
            simp at hc
            rcases hc with hc | hc | hc <;> simp [hc]
        | notDownloaded =>
          dsimp only
          refine ⟨?_, ?_, ?_⟩
          · intro hpl
            simp [stopAllEffects] at hpl
          · rw [List.take_left' hlen]
          · rw [List.drop_left' hlen]
            intro c hc n
            simp at hc
            rcases hc with hc | hc | hc <;> simp [hc]
        | otherError =>
          dsimp only
          refine ⟨?_, ?_, ?_⟩
          · intro hpl
            simp [stopAllEffects] at hpl
          · rw [List.take_left' hlen]
          · rw [List.drop_left' hlen]
            intro c hc n
            simp at hc
            rcases hc with hc | hc | hc <;> simp [hc]
      · rw [if_neg hdl]
        refine ⟨?_, ?_, ?_⟩
        · intro hpl
          simp [stopAllEffects] at hpl
        · rw [List.take_left' hlen]
        · rw [List.drop_left' hlen]
          intro c hc n
          simp at hc
          rcases hc with hc | hc <;> simp [hc]
    | notExclusiveAcquired =>
      dsimp only
      refine ⟨?_, ?_, ?_⟩
      · intro hpl
        simp [stopAllEffects] at hpl
      · rw [List.take_left' hlen]
      · rw [List.drop_left' hlen]
        intro c hc n
        simp at hc
        simp [hc]
    | inputLost =>
      dsimp only
      refine ⟨?_, ?_, ?_⟩
      · intro hpl
        simp [stopAllEffects] at hpl
      · rw [List.take_left' hlen]
      · rw [List.drop_left' hlen]
        intro c hc n
        simp at hc
        simp [hc]
    | otherError =>
      dsimp only
      refine ⟨?_, ?_, ?_⟩
      · intro hpl
        simp [stopAllEffects] at hpl
      · rw [List.take_left' hlen]
      · rw [List.drop_left' hlen]
        intro c hc n
        simp at hc
        simp [hc]

/-- C7: when the first start fails because the effect is not resident
(`DIERR_NOTDOWNLOADED`), play issues exactly one download command; if the
download succeeds it retries the start exactly once (two starts in total),
and if the download fails it does not retry at all (one start in total); in
either case, when no start succeeded the failure is surfaced — the playing
flag stays false — with no further automatic retries. -/
theorem play_notDownloaded_one_retry (s : SessionState) (o : PlayOracle)
    (hne : s.effectNames.isEmpty = false)
    (hfound : (mapFind (currentName s) s.effects).isSome = true)
    (h1 : o.start1 = StartResult.notDownloaded) :
    countDownload (playCurrentEffect o s).2 = 1 ∧
    (o.downloadOk = true → countStart (playCurrentEffect o s).2 = 2) ∧
    (o.downloadOk = false → countStart (playCurrentEffect o s).2 = 1) ∧
    ((o.downloadOk = false ∨ o.start2 ≠ StartResult.ok) →
      (playCurrentEffect o s).1.effectPlaying = false) := by
  have hstopfind : ∀ k : String, mapFind k (stopAllEffects s).1.effects =
      (mapFind k s.effects).map (fun sl : EffSlot => { sl with playing := false }) := by
    intro k
    exact mapFind_mapValues (fun sl : EffSlot => { sl with playing := false }) k
      s.effects
  have hcur : currentName (stopAllEffects s).1 = currentName s := rfl
  have hfind2 : ∃ slot2, mapFind (currentName (stopAllEffects s).1)
      (stopAllEffects s).1.effects = some slot2 := by
    rw [hcur, hstopfind (currentName s)]
    cases hob : mapFind (currentName s) s.effects with
    | none => rw [hob] at hfound; simp at hfound
    | some v => exact ⟨_, rfl⟩
  obtain ⟨slot2, hfind⟩ := hfind2
  unfold playCurrentEffect
  simp only [hne, Bool.false_eq_true, if_false]
  rw [hfind, h1]
  dsimp only
  by_cases hdl : o.downloadOk = true
  · rw [if_pos hdl]
    cases hst2 : o.start2 with
    | ok =>
      dsimp only
      refine ⟨?_, ?_, ?_, ?_⟩
      · rw [countDownload_append, countDownload_stopTrace]
        simp [countDownload]
      · intro _
        rw [countStart_append, countStart_stopTrace]
        simp [countStart]
      · intro hdlf
        rw [hdlf] at hdl
        exact absurd hdl (by simp)
      · intro hbad
        rcases hbad with hbad | hbad
        · rw [hbad] at hdl
          exact absurd hdl (by simp)
        · exact absurd rfl hbad
    | notExclusiveAcquired =>
      dsimp only
      refine ⟨?_, ?_, ?_, ?_⟩
      · rw [countDownload_append, countDownload_stopTrace]
        simp [countDownload]
      · intro _
        rw [countStart_append, countStart_stopTrace]
        simp [countStart]
      · intro hdlf
        rw [hdlf] at hdl
        exact absurd hdl (by simp)
      · intro _
        simp [stopAllEffects]
    | inputLost =>
      dsimp only
      refine ⟨?_, ?_, ?_, ?_⟩
      · rw [countDownload_append, countDownload_stopTrace]
        simp [countDownload]
      · intro _
        rw [countStart_append, countStart_stopTrace]
        simp [countStart]
      · intro hdlf
        rw [hdlf] at hdl
        exact absurd hdl (by simp)
      · intro _
        simp [stopAllEffects]
    | notDownloaded =>
      dsimp only
      refine ⟨?_, ?_, ?_, ?_⟩
      · rw [countDownload_append, countDownload_stopTrace]
        simp [countDownload]
      · intro _
        rw [countStart_append, countStart_stopTrace]
        simp [countStart]
      · intro hdlf
        rw [hdlf] at hdl
        exact absurd hdl (by simp)
      · intro _
        simp [stopAllEffects]
    | otherError =>
      dsimp only
      refine ⟨?_, ?_, ?_, ?_⟩
      · rw [countDownload_append, countDownload_stopTrace]
        simp [countDownload]
      · intro _
        rw [countStart_append, countStart_stopTrace]
        simp [countStart]
      · intro hdlf
        rw [hdlf] at hdl
        exact absurd hdl (by simp)
      · intro _
        simp [stopAllEffects]
  · rw [if_neg hdl]
    refine ⟨?_, ?_, ?_, ?_⟩
    · rw [countDownload_append, countDownload_stopTrace]
      simp [countDownload]
    · intro hdlt
      exact absurd hdlt hdl
    · intro _
      rw [countStart_append, countStart_stopTrace]
      simp [countStart]
    · intro _
      simp [stopAllEffects]

theorem effectNames_nonempty_of_periodic (s : SessionState)
    (hname : currentName s ∈ periodicNames) :
    s.effectNames.isEmpty = false := by
  cases hn : s.effectNames with
  | nil =>
    exfalso
    rw [currentName, hn] at hname
    simp [periodicNames] at hname
  | cons a l => rfl

/-- C10 (amended): while a Periodic effect of the catalog is playing, an
intensity adjustment pushes a `DIPERIODIC` block whose magnitude is the
absolute session intensity, whose period is hard-coded to 200 ms (200000
microseconds) and whose phase is 0, regardless of the parameters the effect
was registered with; the registered periods of Carre, Triangle and Dent_Scie
are 150000, 300000 and 180000 microseconds, none of which is 200000, so the
push silently alters their period together with the magnitude, while the
phase — registered as 0 for every catalog effect — is unchanged. -/
theorem adjustIntensity_periodic_push (s : SessionState) (delta : Int)
    (hplay : s.effectPlaying = true)
    (hname : currentName s ∈ periodicNames)
    (hfound : (mapFind (currentName s) s.effects).isSome = true) :
    (adjustIntensity delta s).effects =
      setParams (currentName s)
        (.periodic |adjustedIntensityWin s.forceIntensity delta| 0 0 (200 * 1000))
        s.effects ∧
    mkPeriodicParams 7000 150 = .periodic 7000 0 0 150000 ∧
    mkPeriodicParams 5000 300 = .periodic 5000 0 0 300000 ∧
    mkPeriodicParams 6000 180 = .periodic 6000 0 0 180000 ∧
    (150000 : Nat) ≠ 200 * 1000 ∧ (300000 : Nat) ≠ 200 * 1000 ∧
    (180000 : Nat) ≠ 200 * 1000 := by
  have hne := effectNames_nonempty_of_periodic s hname
  have hc : containsSub "Constant" (currentName s) = false := by
    simp only [periodicNames, List.mem_cons, List.mem_singleton] at hname
    rcases hname with h | h | h | h | h
    case inr.inr.inr.inr => simp at h
    all_goals rw [h]
    all_goals decide
  have hp : periodicNameHit (currentName s) = true := by
    simp only [periodicNames, List.mem_cons, List.mem_singleton] at hname
    rcases hname with h | h | h | h | h
    case inr.inr.inr.inr => simp at h
    all_goals rw [h]
    all_goals decide
  refine ⟨?_, rfl, rfl, rfl, by decide, by decide, by decide⟩
  cases hob : mapFind (currentName s) s.effects with
  | none => rw [hob] at hfound; simp at hfound
  | some slot =>
    unfold adjustIntensity
    dsimp only [currentName] at hob hc hp ⊢
    have hcond : (s.effectPlaying && !s.effectNames.isEmpty) = true := by
      rw [hplay, hne]
      rfl
    rw [if_pos hcond]
    rw [hob]
    dsimp only
    rw [hc]
    rw [if_neg Bool.false_ne_true]
    rw [hp]
    rw [if_pos rfl]

def sCarre : SessionState :=
  { effects := [("Carre", ⟨mkPeriodicParams 7000 150, true, true⟩)],
    effectNames := ["Carre"], currentIndex := 0, effectPlaying := true,
    deviceAcquired := true, forceIntensity := 5000 }

/-- The resident type-specific block of a registered effect. -/
def residentParams (name : String) (s : SessionState) : Option TypeParams :=
  (mapFind name s.effects).map EffSlot.params

/-- The phase of a resident Periodic block, if the effect is resident and
Periodic. -/
def residentPhase (name : String) (s : SessionState) : Option Nat :=
  match residentParams name s with
  | some (.periodic _ _ ph _) => some ph
  | _ => none

/-- C10, counterexample: the claim says an intensity adjustment alters the
playing effect's period AND phase.  With `Carre` (registered with period
150 ms, phase 0) playing, one `AdjustIntensity(+500)` call leaves the
resident phase exactly as registered (0 before, 0 after): the period is
silently changed to 200000 microseconds but the phase is not altered. -/
theorem adjustIntensity_phase_unchanged_Carre :
    residentPhase "Carre" (adjustIntensity 500 sCarre) =
      residentPhase "Carre" sCarre ∧
    residentParams "Carre" sCarre = some (.periodic 7000 0 0 150000) ∧
    residentParams "Carre" (adjustIntensity 500 sCarre) =
      some (.periodic 5500 0 0 200000) := by
  decide

/-- C10, witness. -/
theorem adjustIntensity_periodic_push_witness :
    (adjustIntensity 500 sCarre).effects =
      setParams (currentName sCarre)
        (.periodic |adjustedIntensityWin sCarre.forceIntensity 500| 0 0
          (200 * 1000)) sCarre.effects :=
  (adjustIntensity_periodic_push sCarre 500 rfl (by decide) (by decide)).1

/-- C4, witness for the amended statement. -/
theorem play_inputLost_soft_fail_witness :
    (playCurrentEffect ⟨.inputLost, false, .ok⟩ sOneSinus).1.deviceAcquired =
      sOneSinus.deviceAcquired :=
  (play_inputLost_soft_fail sOneSinus ⟨.inputLost, false, .ok⟩ (by decide) rfl).1

/-- C5, witness: a successful play on the one-effect session leaves exactly
one effect playing. -/
theorem play_single_active_witness :
    playingCount (playCurrentEffect ⟨.ok, false, .ok⟩ sOneSinus).1.effects = 1 :=
  (play_single_active sOneSinus ⟨.ok, false, .ok⟩ (by decide) rfl).2.1 (by decide)

/-- C7, witness: a play whose first start reports not-downloaded issues
exactly one download. -/
theorem play_notDownloaded_one_retry_witness :
    countDownload (playCurrentEffect ⟨.notDownloaded, true, .ok⟩ sOneSinus).2 = 1 :=
  (play_notDownloaded_one_retry sOneSinus ⟨.notDownloaded, true, .ok⟩
    (by decide) (by decide) rfl).1

/-! ## The polling loop (`UpdateLoop` / `UpdateDeviceState`, Windows)

One tick of the background update thread.  The device's answers for the
tick are a `DevResp`: whether `Acquire` would succeed from an unacquired
state, whether `Poll` succeeds, whether the inline re-`Acquire` after a
failed poll succeeds, whether `GetDeviceState` succeeds, and the sample it
would return.  The cached `DIJOYSTATE2` is the `Sample`. -/

/-- The cached device sample (`m_JoyState` fields the program reads). -/
structure Sample where
  lX : Int
  lY : Int
  lZ : Int
  buttons : Nat
deriving DecidableEq

/-- The polling-relevant state: `m_bDeviceAcquired` and `m_JoyState`. -/
structure PollState where
  acquired : Bool
  joyState : Sample
deriving DecidableEq

/-- Device answers for one tick. -/
structure DevResp where
  acquireOk : Bool
  pollOk : Bool
  reacquireOk : Bool
  getStateOk : Bool
  sample : Sample
deriving DecidableEq

/-- The `GetDeviceState` step: overwrite the cached sample on success,
clear the acquired flag on failure. -/
def readStatePhase (r : DevResp) (s : PollState) : PollState :=
  if r.getStateOk then { s with joyState := r.sample }
  else { s with acquired := false }

/-- The `Poll` step: on failure try `Acquire` once; if that also fails,
clear the acquired flag and skip the read. -/
def pollPhase (r : DevResp) (s : PollState) : PollState :=
  if r.pollOk then readStatePhase r s
  else if r.reacquireOk then readStatePhase r s
  else { s with acquired := false }

/-- One `UpdateDeviceState()` tick. -/
def updateDeviceState (r : DevResp) (s : PollState) : PollState :=
  if s.acquired then pollPhase r s
  else if r.acquireOk then pollPhase r { s with acquired := true }
  else s

/-- The `UpdateLoop` thread body over a finite schedule of ticks: one
`UpdateDeviceState` per tick until the `m_bRunning` flag ends the
schedule. -/
def updateLoop (rs : List DevResp) (s : PollState) : PollState :=
  rs.foldl (fun st r => updateDeviceState r st) s

/-- C9: on every tick, (1) when the device is not acquired and the acquire
attempt fails the tick is skipped whole — the state, including the cached
sample, is unchanged; (2) when the tick reaches the state pull and the pull
fails, the acquired flag is cleared (state Lost) and the cached sample kept;
and (3) the loop itself never halts on these outcomes: after any tick it
continues with the remaining schedule, whatever the tick's responses were. -/
theorem pollingTick_invariants (r : DevResp) (s : PollState) :
    (s.acquired = false → r.acquireOk = false → updateDeviceState r s = s) ∧
    ((s.acquired = true ∨ r.acquireOk = true) →
      (r.pollOk = true ∨ r.reacquireOk = true) →
      r.getStateOk = false →
      (updateDeviceState r s).acquired = false ∧
      (updateDeviceState r s).joyState = s.joyState) ∧
    (∀ rs : List DevResp, updateLoop (r :: rs) s =
      updateLoop rs (updateDeviceState r s)) := by
  refine ⟨?_, ?_, fun rs => rfl⟩
  · intro hacq hfail
    unfold updateDeviceState
    rw [hacq]
    simp [hfail]
  · intro hacq hpoll hget
    have hread : ∀ st : PollState, (readStatePhase r st).acquired = false ∧
        (readStatePhase r st).joyState = st.joyState := by
      intro st
      unfold readStatePhase
      rw [hget]
      simp
    have hpollp : ∀ st : PollState, (pollPhase r st).acquired = false ∧
        (pollPhase r st).joyState = st.joyState := by
      intro st
      unfold pollPhase
      rcases hpoll with hp2 | hp2
      · rw [hp2]
        simpa using hread st
      · by_cases hpk : r.pollOk = true
        · rw [hpk]
          simpa using hread st
        · simp only [Bool.not_eq_true] at hpk
          rw [hpk, hp2]
          simpa using hread st
    unfold updateDeviceState
    rcases hacq with ha | ha
    · rw [ha]
      simpa using hpollp s
    · by_cases hak : s.acquired = true
      · rw [hak]
        simpa using hpollp s
      · simp only [Bool.not_eq_true] at hak
        rw [hak, ha]
        simpa using hpollp { s with acquired := true }

/-- C9, witness: a tick where acquisition is held, the poll succeeds and the
state pull fails clears the acquired flag and keeps the sample; a tick where
acquisition is absent and the acquire attempt fails changes nothing. -/
theorem pollingTick_invariants_witness :
    updateDeviceState ⟨false, true, false, true, ⟨1, 2, 3, 0⟩⟩
        ⟨false, ⟨0, 0, 0, 0⟩⟩ = ⟨false, ⟨0, 0, 0, 0⟩⟩ ∧
    (updateDeviceState ⟨true, true, false, false, ⟨1, 2, 3, 0⟩⟩
        ⟨true, ⟨7, 8, 9, 1⟩⟩).acquired = false :=
  ⟨(pollingTick_invariants ⟨false, true, false, true, ⟨1, 2, 3, 0⟩⟩
      ⟨false, ⟨0, 0, 0, 0⟩⟩).1 rfl rfl,
   ((pollingTick_invariants ⟨true, true, false, false, ⟨1, 2, 3, 0⟩⟩
      ⟨true, ⟨7, 8, 9, 1⟩⟩).2.1 (Or.inl rfl) (Or.inl rfl) rfl).1⟩
